import Mathlib

/-!
Shallow embedding of the container-resource-usage monitor (src/main.py).

The embedding covers the three core pieces the verification targets:
string primitives modelling the Python string operations used by the
program (`strip`, `rstrip`, `split`, substring containment, `float()` on
plain decimal literals), the unit normalizer `convert_to_mb`, the
collector loop `collect_container_stats`, and the analyzer
`analyze_max_usage`.  Floats are modelled as exact rationals; fallible
Python code (raised exceptions) is modelled with `Option`/`Except`.
-/

attribute [local semireducible] Rat.mul Rat.add Rat.inv Rat.sub Rat.ofScientific

/-- Boolean test that the first character list is an initial segment of the
second one. -/
def leadsWith : List Char → List Char → Bool
  | [], _ => true
  | _ :: _, [] => false
  | x :: xs, y :: ys => x = y && leadsWith xs ys

/-- Substring containment on character lists, modelling Python `needle in hay`. -/
def containsSubL (n : List Char) : List Char → Bool
  | [] => n.isEmpty
  | c :: rest => leadsWith n (c :: rest) || containsSubL n rest

/-- Substring containment on strings, modelling Python `n in s`. -/
def containsSub (n s : String) : Bool := containsSubL n.data s.data

/-- Boolean suffix test on character lists. -/
def endsWithL (n l : List Char) : Bool := leadsWith n.reverse l.reverse

/-- Remove the longest trailing run of characters drawn from `cs`, modelling
Python `str.rstrip(cs)`. -/
def rstripL (cs : List Char) (l : List Char) : List Char :=
  (l.reverse.dropWhile (fun c => cs.contains c)).reverse

/-- String wrapper for `rstripL`: models Python `s.rstrip(cs)`. -/
def rstripS (s : String) (cs : String) : String := ⟨rstripL cs.data s.data⟩

/-- The whitespace characters recognized by Python `str.strip()` (ASCII part). -/
def isPySpace (c : Char) : Bool :=
  c = ' ' || c = '\t' || c = '\n' || c = '\r' || c = '\x0b' || c = '\x0c'

/-- Remove leading and trailing whitespace, modelling Python `str.strip()`. -/
def stripL (l : List Char) : List Char :=
  ((l.dropWhile isPySpace).reverse.dropWhile isPySpace).reverse

/-- String wrapper for `stripL`: models Python `s.strip()`. -/
def pyStrip (s : String) : String := ⟨stripL s.data⟩

/-- Split a character list at every occurrence of the character `sep`,
modelling Python `s.split(sep)` for a one-character separator. -/
def splitOnCharL (sep : Char) : List Char → List (List Char)
  | [] => [[]]
  | c :: rest =>
    if c = sep then [] :: splitOnCharL sep rest
    else
      match splitOnCharL sep rest with
      | [] => [[c]]
      | h :: t => (c :: h) :: t

/-- String wrapper for `splitOnCharL`. -/
def splitOnCharS (sep : Char) (s : String) : List String :=
  (splitOnCharL sep s.data).map (fun l => (⟨l⟩ : String))

/-- Fuel-bounded splitting at every non-overlapping occurrence of the
three-character delimiter `" / "`, left to right; with fuel at least the
length of the list this is Python `s.split(" / ")`. -/
def splitOnSepFuel : Nat → List Char → List (List Char)
  | 0, l => [l]
  | fuel + 1, l =>
    match l with
    | [] => [[]]
    | c :: rest =>
      if c = ' ' && leadsWith ['/', ' '] rest then
        [] :: splitOnSepFuel fuel (rest.drop 2)
      else
        match splitOnSepFuel fuel rest with
        | [] => [[c]]
        | h :: t => (c :: h) :: t

/-- Split a character list at every non-overlapping occurrence of the
three-character delimiter `" / "`, left to right, modelling Python
`s.split(" / ")`. -/
def splitOnSepL (l : List Char) : List (List Char) := splitOnSepFuel l.length l

deriving instance DecidableEq for Except

/-- Numeric value of a run of decimal digits. -/
def digitsToNat (l : List Char) : Nat := l.foldl (fun a c => a * 10 + (c.toNat - 48)) 0

/-- Value of a plain decimal literal `digits[.digits]`, the fragment of
Python `float()` syntax that the program feeds it (no exponents, no
`inf`/`nan`). `none` models a raised `ValueError`. -/
def pyFloatCore (l : List Char) : Option ℚ :=
  match splitOnCharL '.' l with
  | [ip] =>
    if ip.isEmpty then none
    else if ip.all Char.isDigit then some ((digitsToNat ip : ℚ)) else none
  | [ip, fp] =>
    if ip.isEmpty && fp.isEmpty then none
    else if ip.all Char.isDigit && fp.all Char.isDigit then
      some ((digitsToNat ip : ℚ) + (digitsToNat fp : ℚ) / ((10 : ℚ) ^ fp.length))
    else none
  | _ => none

/-- Model of Python `float(s)` on optionally signed plain decimal literals:
surrounding whitespace is ignored, `none` models a raised `ValueError`. -/
def pyFloat? (s : String) : Option ℚ :=
  match stripL s.data with
  | '-' :: rest => (pyFloatCore rest).map (fun q => -q)
  | '+' :: rest => pyFloatCore rest
  | l => pyFloatCore l

/-- Embedding of `convert_to_mb` (src/main.py lines 92-102): strip
whitespace, then test `"GB"`, `"MB"`, `"kB"`, `"B"` for substring
containment in that order, `rstrip` the matching unit's characters and
parse the remainder as a float, scaled to MiB; return 0 when no unit
occurs. `none` models the `ValueError` that `float` raises when the
remainder is not numeric. -/
def convert_to_mb (value : String) : Option ℚ :=
  let v := pyStrip value
  if containsSub "GB" v then (pyFloat? (rstripS v "GB")).map (fun q => q * 1024)
  else if containsSub "MB" v then pyFloat? (rstripS v "MB")
  else if containsSub "kB" v then (pyFloat? (rstripS v "kB")).map (fun q => q / 1024)
  else if containsSub "B" v then (pyFloat? (rstripS v "B")).map (fun q => q / (1024 * 1024))
  else some 0

/-- Embedding of the percent normalization used by the analyzer
(src/main.py lines 88-89): `rstrip("%")` then `float`. -/
def parsePercent (s : String) : Option ℚ := pyFloat? (rstripS s "%")

/-- Modelled from the spec: the spec-side reading in which one of the
recognized byte suffixes `GB`, `MB`, `kB`, `B` must match at the end of
the whitespace-stripped input.  The source (`convert_to_mb`) instead
tests substring containment; this definition exists only to compare the
two readings. -/
def hasByteSuffix (s : String) : Bool :=
  endsWithL "GB".data (pyStrip s).data || endsWithL "MB".data (pyStrip s).data ||
    endsWithL "kB".data (pyStrip s).data || endsWithL "B".data (pyStrip s).data

/-! ## Collector (src/main.py `collect_container_stats`, lines 15-77)

The polling loop is embedded as a function over a finite trace of tick
events.  Each tick either yields the stdout of the `docker stats` query
(`output`, with the wall-clock timestamp string taken at that tick), or an
external interruption (`interrupt`, the `KeyboardInterrupt` handler which
breaks out of the loop), or an unexpected failure in the loop body
(`failure`, the generic `except Exception` handler which also breaks). -/

/-- One iteration of the collector loop, as observed from outside. -/
inductive TickEvent where
  | output (ts stdout : String)
  | interrupt
  | failure
deriving DecidableEq

/-- The fixed CSV schema header written once at stream creation
(src/main.py line 30), without the trailing newline. -/
def headerStr : String :=
  "Timestamp,Container,CPU_Usage,Memory_Usage,Memory_Percent,Disk_Read,Disk_Write"

/-- The header line as written to the file. -/
def headerLine : String := headerStr ++ "\n"

/-- The seven comma-separated fields of one record, without the trailing
newline (the payload of the f-string at src/main.py line 66). -/
def formatRecordCore (ts cid cpu mem memp dr dw : String) : String :=
  ts ++ "," ++ cid ++ "," ++ cpu ++ "," ++ mem ++ "," ++ memp ++ "," ++ dr ++ "," ++ dw

/-- One full record line as written by the collector (src/main.py line 66). -/
def formatRecord (ts cid cpu mem memp dr dw : String) : String :=
  formatRecordCore ts cid cpu mem memp dr dw ++ "\n"

/-- Embedding of the block-I/O split (src/main.py lines 60-62):
`block_io.split(" / ") if " / " in block_io else (block_io, "0B")`.
`none` models the `ValueError` raised by tuple unpacking when the split
yields more than two parts. -/
def parseBlockIo (block : String) : Option (String × String) :=
  if containsSub " / " block then
    match (splitOnSepL block.data).map (fun l => (⟨l⟩ : String)) with
    | [r, w] => some (r, w)
    | _ => none
  else some (block, "0B")

/-- Parsing and formatting of one non-empty tick body (src/main.py lines
51-66): split the stripped stdout on commas, read the first five fields,
split the block-I/O field, and format the record line.  `none` models an
exception (`IndexError` on too few fields, `ValueError` from the block-I/O
unpack) escaping to the loop's generic handler. -/
def buildRecord (ts s : String) : Option String :=
  let stats := splitOnCharS ',' s
  (stats.get? 0).bind fun cid =>
    (stats.get? 1).bind fun cpu =>
      (stats.get? 2).bind fun mem =>
        (stats.get? 3).bind fun memp =>
          (stats.get? 4).bind fun bio =>
            (parseBlockIo bio).map fun rw => formatRecord ts cid cpu mem memp rw.1 rw.2

/-- One collector tick on query output (src/main.py lines 50-68): empty
stripped stdout is skipped (`some none`), otherwise the record is built.
The outer `none` models an exception aborting the loop. -/
def processTick (ts stdout : String) : Option (Option String) :=
  if pyStrip stdout = "" then some none
  else (buildRecord ts (pyStrip stdout)).map some

/-- The list of record lines the collector loop appends over a trace of
tick events: skipped ticks append nothing, an interruption or a failure
stops the loop, a failing parse stops the loop with nothing appended for
that tick (src/main.py lines 33-77). -/
def collectRecords : List TickEvent → List String
  | [] => []
  | TickEvent.interrupt :: _ => []
  | TickEvent.failure :: _ => []
  | TickEvent.output ts s :: rest =>
    match processTick ts s with
    | none => []
    | some none => collectRecords rest
    | some (some line) => line :: collectRecords rest

/-- Sequential concatenation of appended strings (the successive
`f.write` calls). -/
def joinAll : List String → String
  | [] => ""
  | s :: rest => s ++ joinAll rest

/-- Embedding of `collect_container_stats`: the file content after a run
over the given trace — truncation, one header line, then the appended
records. -/
def collect_container_stats (ticks : List TickEvent) : String :=
  headerLine ++ joinAll (collectRecords ticks)

/-- A tick whose query output is non-empty after stripping. -/
def tickNonEmpty : TickEvent → Bool
  | TickEvent.output _ s => !(pyStrip s == "")
  | _ => false

/-- A tick that is a query output processed without an exception. -/
def tickOk : TickEvent → Bool
  | TickEvent.output ts s => (processTick ts s).isSome
  | _ => false

/-! ## Analyzer (src/main.py `analyze_max_usage`, lines 80-136) -/

/-- One loaded and canonicalized row of the series, as the analyzer's
dataframe holds it after the percent and disk-I/O conversions: CPU and
memory percents and disk MiB as numbers, `Timestamp`, `Container` and
`Memory_Usage` as their raw strings. -/
structure Row where
  ts : String
  container : String
  cpu : ℚ
  memRaw : String
  memPercent : ℚ
  diskRead : ℚ
  diskWrite : ℚ
deriving DecidableEq

/-- Placeholder row for total indexing. -/
def defaultRow : Row := ⟨"", "", 0, "", 0, 0, 0⟩

/-- Analyzer failure cases: `notFound` models the `FileNotFoundError`
handler (src/main.py line 133), `parseError` models the generic handler
catching a malformed schema or a `ValueError` from a numeric conversion
(line 135), `emptySeries` models the same generic handler catching the
`idxmax` failure on a dataframe with no rows. -/
inductive AErr where
  | notFound
  | parseError
  | emptySeries
deriving DecidableEq

/-- The report printed by `analyze_max_usage` (src/main.py lines 107-131):
per-metric maxima, the raw memory-usage string at the row where the memory
percent peaked, and the four peak timestamps. -/
structure Report where
  maxCpu : ℚ
  maxMemPercent : ℚ
  maxMemRaw : String
  maxDiskRead : ℚ
  maxDiskWrite : ℚ
  cpuPeakTs : String
  memPeakTs : String
  diskReadPeakTs : String
  diskWritePeakTs : String
deriving DecidableEq

/-- Parse one CSV data line into a canonicalized row: seven
comma-separated fields, percent fields through `parsePercent`, disk fields
through `convert_to_mb`.  `none` models the exception that aborts the
analyzer run. -/
def parseRow (line : String) : Option Row :=
  match splitOnCharS ',' line with
  | [ts, cid, cpu, mem, memp, dr, dw] =>
    match parsePercent cpu, parsePercent memp, convert_to_mb dr, convert_to_mb dw with
    | some c, some mp, some r, some w => some ⟨ts, cid, c, mem, mp, r, w⟩
    | _, _, _, _ => none
  | _ => none

/-- Parse all data lines, failing on the first malformed one. -/
def parseRows : List String → Option (List Row)
  | [] => some []
  | l :: ls =>
    match parseRow l, parseRows ls with
    | some r, some rs => some (r :: rs)
    | _, _ => none

/-- Load the persisted series from file content: split into lines
(pandas skips blank lines, including the trailing one of a
newline-terminated file), require the fixed schema header, parse every
data row.  Any malformed schema or field is a `parseError`. -/
def loadSeries (content : String) : Except AErr (List Row) :=
  match (splitOnCharS '\n' content).filter (fun l => !(l == "")) with
  | [] => Except.error AErr.parseError
  | h :: rows =>
    if h = headerStr then
      match parseRows rows with
      | some rs => Except.ok rs
      | none => Except.error AErr.parseError
    else Except.error AErr.parseError

/-- Maximum of a column, modelling `Series.max()` on a non-empty column. -/
def colMax : List ℚ → ℚ
  | [] => 0
  | x :: xs => xs.foldl max x

/-- First index whose value reaches at least `m`, the scan underlying
`idxmax`. -/
def idxmaxFrom (m : ℚ) : List ℚ → Nat
  | [] => 0
  | x :: xs => if m ≤ x then 0 else idxmaxFrom m xs + 1

/-- Index of the first occurrence of the maximum of a column, modelling
pandas `Series.idxmax()` on a default range index. -/
def idxmax (l : List ℚ) : Nat := idxmaxFrom (colMax l) l

/-- Build the report from the loaded rows (src/main.py lines 107-131),
each metric's maximum and peak index computed independently, the raw
memory-usage string taken at the memory-percent peak index. -/
def mkReport (rows : List Row) : Report :=
  { maxCpu := colMax (rows.map Row.cpu)
    maxMemPercent := colMax (rows.map Row.memPercent)
    maxMemRaw := (rows.getD (idxmax (rows.map Row.memPercent)) defaultRow).memRaw
    maxDiskRead := colMax (rows.map Row.diskRead)
    maxDiskWrite := colMax (rows.map Row.diskWrite)
    cpuPeakTs := (rows.getD (idxmax (rows.map Row.cpu)) defaultRow).ts
    memPeakTs := (rows.getD (idxmax (rows.map Row.memPercent)) defaultRow).ts
    diskReadPeakTs := (rows.getD (idxmax (rows.map Row.diskRead)) defaultRow).ts
    diskWritePeakTs := (rows.getD (idxmax (rows.map Row.diskWrite)) defaultRow).ts }

/-- Embedding of `analyze_max_usage`: the file is either absent (`none`,
the `FileNotFoundError` case) or present with the given content; a
malformed series is a `parseError`, a series with no data rows fails at
`idxmax` (`emptySeries`), otherwise the report is produced. -/
def analyze_max_usage (file : Option String) : Except AErr Report :=
  match file with
  | none => Except.error AErr.notFound
  | some content =>
    match loadSeries content with
    | Except.error e => Except.error e
    | Except.ok [] => Except.error AErr.emptySeries
    | Except.ok (r :: rs) => Except.ok (mkReport (r :: rs))

/-- State-passing form of the analyzer run over the persisted series
target: `analyze_max_usage` only ever reads the file (`pd.read_csv`); the
source contains no write, append or truncation on `csv_file`, so the file
state passes through unchanged. -/
def analyzeRun (fs : Option String) : Option String × Except AErr Report :=
  (fs, analyze_max_usage fs)

/-! ## Round-trip material: samples written by the collector's record
format and read back by the analyzer's loader. -/

/-- The seven raw string fields of one sample as the collector writes
them. -/
structure RawSample where
  ts : String
  cid : String
  cpu : String
  mem : String
  memp : String
  dr : String
  dw : String
deriving DecidableEq

/-- A field is storable in a CSV record: no comma, no newline. -/
def fieldOk (s : String) : Bool := !(s.data.contains ',') && !(s.data.contains '\n')

/-- A well-formed sample: storable fields, percent fields parse, disk
fields convert. -/
def wfSample (s : RawSample) : Bool :=
  fieldOk s.ts && fieldOk s.cid && fieldOk s.cpu && fieldOk s.mem && fieldOk s.memp &&
    fieldOk s.dr && fieldOk s.dw &&
    (parsePercent s.cpu).isSome && (parsePercent s.memp).isSome &&
    (convert_to_mb s.dr).isSome && (convert_to_mb s.dw).isSome

/-- The sample's record line, via the collector's record format. -/
def writeSample (s : RawSample) : String :=
  formatRecord s.ts s.cid s.cpu s.mem s.memp s.dr s.dw

/-- The sample's data line without the newline. -/
def coreLine (s : RawSample) : String :=
  formatRecordCore s.ts s.cid s.cpu s.mem s.memp s.dr s.dw

/-- File content after appending the samples through the collector's
header and record format. -/
def collectorFile (samples : List RawSample) : String :=
  headerLine ++ joinAll (samples.map writeSample)

/-- The canonicalized row the analyzer should recover for a well-formed
sample. -/
def sampleToRow (s : RawSample) : Row :=
  ⟨s.ts, s.cid, (parsePercent s.cpu).getD 0, s.mem, (parsePercent s.memp).getD 0,
    (convert_to_mb s.dr).getD 0, (convert_to_mb s.dw).getD 0⟩

/-- Index `i` is the position of the first occurrence of the maximum of
the column `l`. -/
def isFirstMaxIdx (l : List ℚ) (i : Nat) : Prop :=
  i < l.length ∧ (∀ j, j < l.length → l.getD j 0 ≤ l.getD i 0) ∧
    ∀ j, j < i → l.getD j 0 < l.getD i 0

/-! ## Helper lemmas about the string primitives -/

lemma charContains_iff {l : List Char} {c : Char} : l.contains c = true ↔ c ∈ l :=
  List.elem_iff

lemma leadsWith_append (n b : List Char) : leadsWith n (n ++ b) = true := by
  induction n with
  | nil => rfl
  | cons x xs ih => simp [leadsWith, ih]

lemma mem_of_leadsWith {n h : List Char} (hl : leadsWith n h = true) : ∀ x ∈ n, x ∈ h := by
  induction n generalizing h with
  | nil => intro x hx; cases hx
  | cons a n' ih =>
    cases h with
    | nil => simp [leadsWith] at hl
    | cons b h' =>
      simp only [leadsWith, Bool.and_eq_true, decide_eq_true_eq] at hl
      obtain ⟨rfl, hl'⟩ := hl
      intro x hx
      rcases List.mem_cons.mp hx with rfl | hx'
      · exact List.mem_cons_self _ _
      · exact List.mem_cons_of_mem _ (ih hl' x hx')

lemma containsSubL_of_leadsWith {n h : List Char} (hl : leadsWith n h = true) :
    containsSubL n h = true := by
  cases h with
  | nil =>
    cases n with
    | nil => rfl
    | cons a n' => simp [leadsWith] at hl
  | cons c rest => simp [containsSubL, hl]

lemma containsSubL_append_mid (a n b : List Char) : containsSubL n (a ++ (n ++ b)) = true := by
  induction a with
  | nil => exact containsSubL_of_leadsWith (leadsWith_append n b)
  | cons c a' ih => simp [containsSubL, ih]

lemma mem_of_containsSubL {n h : List Char} (hc : containsSubL n h = true) :
    ∀ x ∈ n, x ∈ h := by
  induction h with
  | nil =>
    intro x hx
    cases n with
    | nil => cases hx
    | cons a n' => simp [containsSubL] at hc
  | cons c rest ih =>
    simp only [containsSubL, Bool.or_eq_true] at hc
    rcases hc with hc | hc
    · exact fun x hx => mem_of_leadsWith hc x hx
    · exact fun x hx => List.mem_cons_of_mem _ (ih hc x hx)

lemma containsSubL_singleton {ch : Char} {h : List Char} :
    containsSubL [ch] h = true ↔ ch ∈ h := by
  constructor
  · intro hc; exact mem_of_containsSubL hc ch (by simp)
  · intro hm
    induction h with
    | nil => cases hm
    | cons c rest ih =>
      rcases List.mem_cons.mp hm with rfl | hm'
      · simp [containsSubL, leadsWith]
      · simp [containsSubL, ih hm']

lemma dropWhile_append_all {p : Char → Bool} {u : List Char} (v : List Char)
    (hu : ∀ x ∈ u, p x = true) : List.dropWhile p (u ++ v) = List.dropWhile p v := by
  induction u with
  | nil => rfl
  | cons x xs ih =>
    have hx : p x = true := hu x (List.mem_cons_self x xs)
    rw [List.cons_append, List.dropWhile_cons, if_pos hx]
    exact ih (fun y hy => hu y (List.mem_cons_of_mem x hy))

lemma dropWhile_eq_self_all {p : Char → Bool} {l : List Char}
    (h : ∀ x ∈ l, p x = false) : List.dropWhile p l = l := by
  cases l with
  | nil => rfl
  | cons x xs =>
    have hx := h x (List.mem_cons_self x xs)
    rw [List.dropWhile_cons, if_neg (by simp [hx])]

lemma rstripL_append {cs a suf : List Char}
    (hsuf : ∀ c ∈ suf, cs.contains c = true) (ha : ∀ c ∈ a, cs.contains c = false) :
    rstripL cs (a ++ suf) = a := by
  unfold rstripL
  rw [List.reverse_append]
  rw [dropWhile_append_all _ (fun x hx => hsuf x (List.mem_reverse.mp hx))]
  rw [dropWhile_eq_self_all (fun x hx => ha x (List.mem_reverse.mp hx))]
  exact List.reverse_reverse a

lemma stripL_eq_self {l : List Char} (h : ∀ c ∈ l, isPySpace c = false) : stripL l = l := by
  unfold stripL
  rw [dropWhile_eq_self_all h]
  rw [dropWhile_eq_self_all (fun x hx => h x (List.mem_reverse.mp hx))]
  exact List.reverse_reverse l

lemma splitOnCharL_ne_nil (sep : Char) (l : List Char) : splitOnCharL sep l ≠ [] := by
  cases l with
  | nil => simp [splitOnCharL]
  | cons c rest =>
    by_cases hc : c = sep
    · simp [splitOnCharL, hc]
    · simp only [splitOnCharL, if_neg hc]
      cases hr : splitOnCharL sep rest <;> simp

lemma splitOnCharL_nosep {sep : Char} {l : List Char} (h : sep ∉ l) :
    splitOnCharL sep l = [l] := by
  induction l with
  | nil => rfl
  | cons c rest ih =>
    have hc : ¬ c = sep := fun e => h (by rw [← e]; exact List.mem_cons_self c rest)
    have ih' := ih (fun hm => h (List.mem_cons_of_mem c hm))
    simp only [splitOnCharL, if_neg hc, ih']

lemma splitOnCharL_append {sep : Char} {a : List Char} (b : List Char) (h : sep ∉ a) :
    splitOnCharL sep (a ++ sep :: b) = a :: splitOnCharL sep b := by
  induction a with
  | nil => simp [splitOnCharL]
  | cons c a' ih =>
    have hc : ¬ c = sep := fun e => h (by rw [← e]; exact List.mem_cons_self c a')
    have ih' := ih (fun hm => h (List.mem_cons_of_mem c hm))
    simp only [List.cons_append, splitOnCharL, if_neg hc, List.append_eq, ih']

lemma splitOnSepFuel_no_slash {l : List Char} (h : '/' ∉ l) :
    ∀ fuel, l.length ≤ fuel → splitOnSepFuel fuel l = [l] := by
  induction l with
  | nil =>
    intro fuel _
    cases fuel with
    | zero => rfl
    | succ f => rfl
  | cons c rest ih =>
    intro fuel hf
    cases fuel with
    | zero => simp at hf
    | succ f =>
      have hcond : (c = ' ' && leadsWith ['/', ' '] rest) = false := by
        cases rest with
        | nil => simp [leadsWith]
        | cons d rest' =>
          have hd : ¬ ('/' = d) := fun e =>
            h (by rw [e]; exact List.mem_cons_of_mem c (List.mem_cons_self d rest'))
          simp [leadsWith, hd]
      have hlen : rest.length ≤ f := by
        simp only [List.length_cons] at hf
        omega
      have ih' := ih (fun hm => h (List.mem_cons_of_mem c hm)) f hlen
      simp only [splitOnSepFuel, hcond, Bool.false_eq_true, if_false, ih']

lemma splitOnSepFuel_mid {a : List Char} (b : List Char) (ha : '/' ∉ a) (hb : '/' ∉ b) :
    ∀ fuel, (a ++ ' ' :: '/' :: ' ' :: b).length ≤ fuel →
      splitOnSepFuel fuel (a ++ ' ' :: '/' :: ' ' :: b) = [a, b] := by
  induction a with
  | nil =>
    intro fuel hf
    cases fuel with
    | zero => simp at hf
    | succ f =>
      have hlen : b.length ≤ f := by
        simp only [List.nil_append, List.length_cons] at hf
        omega
      have hsplit := splitOnSepFuel_no_slash hb f hlen
      simp [splitOnSepFuel, leadsWith, hsplit]
  | cons c a' ih =>
    intro fuel hf
    cases fuel with
    | zero => simp at hf
    | succ f =>
      have hcond : (c = ' ' && leadsWith ['/', ' '] (a' ++ ' ' :: '/' :: ' ' :: b)) = false := by
        cases a' with
        | nil => simp [leadsWith]
        | cons d a'' =>
          have hd : ¬ ('/' = d) := fun e =>
            ha (by rw [e]; exact List.mem_cons_of_mem c (List.mem_cons_self d a''))
          simp [leadsWith, hd]
      have hlen : (a' ++ ' ' :: '/' :: ' ' :: b).length ≤ f := by
        simp only [List.cons_append, List.length_cons] at hf
        simp only [List.length_append, List.length_cons]
        simp only [List.length_append, List.length_cons] at hf
        omega
      have ih' := ih (fun hm => ha (List.mem_cons_of_mem c hm)) f hlen
      simp only [List.cons_append, splitOnSepFuel, hcond, Bool.false_eq_true, if_false, ih']

lemma splitOnSepL_no_slash {l : List Char} (h : '/' ∉ l) : splitOnSepL l = [l] :=
  splitOnSepFuel_no_slash h l.length (le_refl _)

lemma splitOnSepL_mid {a : List Char} (b : List Char) (ha : '/' ∉ a) (hb : '/' ∉ b) :
    splitOnSepL (a ++ ' ' :: '/' :: ' ' :: b) = [a, b] :=
  splitOnSepFuel_mid b ha hb _ (le_refl _)

lemma string_eq_iff {s t : String} : s = t ↔ s.data = t.data :=
  ⟨fun h => h ▸ rfl, fun h => by cases s; cases t; exact congrArg String.mk h⟩

lemma mk_data (s : String) : (⟨s.data⟩ : String) = s := rfl

/-! ## Helper lemmas about maxima and peak indices -/

lemma le_foldl_max (xs : List ℚ) : ∀ a : ℚ, a ≤ xs.foldl max a := by
  induction xs with
  | nil => intro a; exact le_refl a
  | cons x xs ih => intro a; exact le_trans (le_max_left a x) (ih (max a x))

lemma mem_le_foldl_max (xs : List ℚ) : ∀ (a x : ℚ), x ∈ xs → x ≤ xs.foldl max a := by
  induction xs with
  | nil => intro a x hx; cases hx
  | cons y ys ih =>
    intro a x hx
    rcases List.mem_cons.mp hx with rfl | hx'
    · exact le_trans (le_max_right a x) (le_foldl_max ys (max a x))
    · exact ih (max a y) x hx'

lemma le_colMax {l : List ℚ} {x : ℚ} (hx : x ∈ l) : x ≤ colMax l := by
  cases l with
  | nil => cases hx
  | cons y ys =>
    rcases List.mem_cons.mp hx with rfl | hx'
    · exact le_foldl_max ys x
    · exact mem_le_foldl_max ys y x hx'

lemma foldl_max_mem (xs : List ℚ) : ∀ a : ℚ, xs.foldl max a = a ∨ xs.foldl max a ∈ xs := by
  induction xs with
  | nil => intro a; exact Or.inl rfl
  | cons x xs ih =>
    intro a
    rcases ih (max a x) with h | h
    · rcases max_choice a x with hm | hm
      · exact Or.inl (by rw [List.foldl_cons, h, hm])
      · exact Or.inr (by rw [List.foldl_cons, h, hm]; exact List.mem_cons_self x xs)
    · exact Or.inr (List.mem_cons_of_mem x (by rw [List.foldl_cons]; exact h))

lemma colMax_mem {l : List ℚ} (h : l ≠ []) : colMax l ∈ l := by
  cases l with
  | nil => exact absurd rfl h
  | cons x xs =>
    rcases foldl_max_mem xs x with h1 | h1
    · simp only [colMax, h1]; exact List.mem_cons_self x xs
    · exact List.mem_cons_of_mem x (by simp only [colMax]; exact h1)

lemma getD_mem {α : Type} {l : List α} {i : Nat} (d : α) (h : i < l.length) :
    l.getD i d ∈ l := by
  induction l generalizing i with
  | nil => exact absurd h (by simp)
  | cons x xs ih =>
    cases i with
    | zero => simp [List.getD_cons_zero]
    | succ n =>
      rw [List.getD_cons_succ]
      exact List.mem_cons_of_mem x (ih (Nat.lt_of_succ_lt_succ h))

lemma idxmaxFrom_spec {m : ℚ} {l : List ℚ} (hex : ∃ x ∈ l, m ≤ x) :
    idxmaxFrom m l < l.length ∧ m ≤ l.getD (idxmaxFrom m l) 0 ∧
      ∀ j, j < idxmaxFrom m l → ¬ m ≤ l.getD j 0 := by
  induction l with
  | nil => obtain ⟨x, hx, _⟩ := hex; cases hx
  | cons x xs ih =>
    by_cases hx : m ≤ x
    · refine ⟨by simp [idxmaxFrom, hx], ?_, ?_⟩
      · simp only [idxmaxFrom, if_pos hx, List.getD_cons_zero]
        exact hx
      · intro j hj
        simp [idxmaxFrom, hx] at hj
    · have hex' : ∃ y ∈ xs, m ≤ y := by
        obtain ⟨y, hy, hmy⟩ := hex
        rcases List.mem_cons.mp hy with rfl | hy'
        · exact absurd hmy hx
        · exact ⟨y, hy', hmy⟩
      obtain ⟨h1, h2, h3⟩ := ih hex'
      refine ⟨?_, ?_, ?_⟩
      · simp only [idxmaxFrom, if_neg hx, List.length_cons]
        omega
      · simp only [idxmaxFrom, if_neg hx, List.getD_cons_succ]
        exact h2
      · intro j hj
        simp only [idxmaxFrom, if_neg hx] at hj
        cases j with
        | zero => simpa [List.getD_cons_zero] using hx
        | succ n =>
          rw [List.getD_cons_succ]
          exact h3 n (Nat.lt_of_succ_lt_succ hj)

lemma isFirstMaxIdx_idxmax {l : List ℚ} (h : l ≠ []) : isFirstMaxIdx l (idxmax l) := by
  have hmem := colMax_mem h
  have hex : ∃ x ∈ l, colMax l ≤ x := ⟨colMax l, hmem, le_refl _⟩
  obtain ⟨h1, h2, h3⟩ := idxmaxFrom_spec hex
  have h1' : idxmax l < l.length := h1
  have hval : l.getD (idxmax l) 0 = colMax l :=
    le_antisymm (le_colMax (getD_mem 0 h1')) h2
  refine ⟨h1', ?_, ?_⟩
  · intro j hj
    rw [hval]
    exact le_colMax (getD_mem 0 hj)
  · intro j hj
    rw [hval]
    exact lt_of_not_le (h3 j hj)

/-! ## Helper lemmas about the collector tick -/

lemma processTick_skip_iff {ts s : String} : processTick ts s = some none ↔ pyStrip s = "" := by
  unfold processTick
  by_cases h : pyStrip s = ""
  · simp [h]
  · simp only [if_neg h]
    cases hb : buildRecord ts (pyStrip s) <;> simp [h]

lemma processTick_some_line {ts s line : String} (h : processTick ts s = some (some line)) :
    pyStrip s ≠ "" ∧ buildRecord ts (pyStrip s) = some line := by
  unfold processTick at h
  by_cases hs : pyStrip s = ""
  · rw [if_pos hs] at h
    exact absurd h (by simp)
  · rw [if_neg hs] at h
    cases hb : buildRecord ts (pyStrip s) with
    | none => rw [hb] at h; exact Option.noConfusion h
    | some l =>
      rw [hb] at h
      have h' : (some (some l) : Option (Option String)) = some (some line) := h
      simp only [Option.some.injEq] at h'
      exact ⟨hs, congrArg some h'⟩


/-! ## Helper lemmas about the analyzer -/

lemma analyze_ok_elim {content : String} {rows : List Row} {r : Report}
    (hok : analyze_max_usage (some content) = Except.ok r)
    (hload : loadSeries content = Except.ok rows) :
    rows ≠ [] ∧ r = mkReport rows := by
  have hok' : (match loadSeries content with
      | Except.error e => Except.error e
      | Except.ok [] => Except.error AErr.emptySeries
      | Except.ok (List.cons a as) => Except.ok (mkReport (a :: as))) = Except.ok r := hok
  rw [hload] at hok'
  clear hok
  rename' hok' => hok
  cases rows with
  | nil => simp at hok
  | cons a as =>
    simp only [Except.ok.injEq] at hok
    exact ⟨List.cons_ne_nil a as, hok.symm⟩

/-! ## Helper lemmas for the unit normalizer on numeral-plus-suffix inputs -/

lemma num_not_space {c : Char} (h : c.isDigit = true ∨ c = '.') : isPySpace c = false := by
  rcases h with h | rfl
  · cases hps : isPySpace c
    · rfl
    · exfalso
      have hps' : c = ' ' ∨ c = '\t' ∨ c = '\n' ∨ c = '\x0d' ∨ c = '\x0b' ∨ c = '\x0c' := by
        simpa [isPySpace, or_assoc] using hps
      rcases hps' with rfl | rfl | rfl | rfl | rfl | rfl <;> exact Bool.noConfusion h
  · rfl

lemma contains_false_of_num {cs : List Char} {c : Char} (h : c.isDigit = true ∨ c = '.')
    (hcs : ∀ u ∈ cs, u.isDigit = false ∧ ¬ u = '.') : cs.contains c = false := by
  cases hc : cs.contains c
  · rfl
  · obtain ⟨h1, h2⟩ := hcs c (charContains_iff.mp hc)
    rcases h with h | h
    · rw [h1] at h
      exact Bool.noConfusion h
    · exact absurd h h2

lemma unit_not_mem_num {n : List Char} (hn : ∀ c ∈ n, c.isDigit = true ∨ c = '.')
    {u : Char} (hd : u.isDigit = false) (hdot : ¬ u = '.') : u ∉ n := by
  intro hm
  rcases hn u hm with h | h
  · rw [hd] at h
    exact Bool.noConfusion h
  · exact hdot h

lemma not_mem_append_of {c : Char} {a b : List Char} (h1 : c ∉ a) (h2 : c ∉ b) :
    c ∉ a ++ b := fun hm => (List.mem_append.mp hm).elim h1 h2

lemma containsSub_false_of_not_mem {nn hay : List Char} {u : Char} (hu : u ∈ nn)
    (h : u ∉ hay) : containsSubL nn hay = false := by
  cases hc : containsSubL nn hay
  · rfl
  · exact absurd (mem_of_containsSubL hc u hu) h

lemma pyStrip_eq_self {s : String} (h : ∀ c ∈ s.data, isPySpace c = false) :
    pyStrip s = s := by
  unfold pyStrip
  rw [stripL_eq_self h]

/-- On a numeral (digits and dots only) followed by the unit `GB`, `MB`,
`kB` or `B`, `convert_to_mb` takes exactly the branch of that unit, with
the factors 1024, 1, 1/1024 and 1/(1024*1024) respectively. -/
lemma convert_to_mb_num_suffix (n : String)
    (hn : ∀ c ∈ n.data, c.isDigit = true ∨ c = '.') :
    convert_to_mb (n ++ "GB") = (pyFloat? n).map (fun q => q * 1024) ∧
    convert_to_mb (n ++ "MB") = pyFloat? n ∧
    convert_to_mb (n ++ "kB") = (pyFloat? n).map (fun q => q / 1024) ∧
    convert_to_mb (n ++ "B") = (pyFloat? n).map (fun q => q / (1024 * 1024)) := by
  have hGdata : (n ++ "GB").data = n.data ++ ['G', 'B'] := by rw [String.data_append]
  have hMdata : (n ++ "MB").data = n.data ++ ['M', 'B'] := by rw [String.data_append]
  have hkdata : (n ++ "kB").data = n.data ++ ['k', 'B'] := by rw [String.data_append]
  have hBdata : (n ++ "B").data = n.data ++ ['B'] := by rw [String.data_append]
  have hstrip : ∀ (suf : String) (l : List Char), (n ++ suf).data = n.data ++ l →
      (∀ c ∈ l, isPySpace c = false) → pyStrip (n ++ suf) = n ++ suf := by
    intro suf l hd hl
    refine pyStrip_eq_self ?_
    rw [hd]
    intro c hc
    rcases List.mem_append.mp hc with hc | hc
    · exact num_not_space (hn c hc)
    · exact hl c hc
  have hvG := hstrip "GB" ['G', 'B'] hGdata (by decide)
  have hvM := hstrip "MB" ['M', 'B'] hMdata (by decide)
  have hvk := hstrip "kB" ['k', 'B'] hkdata (by decide)
  have hvB := hstrip "B" ['B'] hBdata (by decide)
  have hnG : 'G' ∉ n.data := unit_not_mem_num hn (by decide) (by decide)
  have hnM : 'M' ∉ n.data := unit_not_mem_num hn (by decide) (by decide)
  have hnk : 'k' ∉ n.data := unit_not_mem_num hn (by decide) (by decide)
  have hcontG : containsSub "GB" (n ++ "GB") = true := by
    show containsSubL "GB".data (n ++ "GB").data = true
    rw [hGdata]
    have h0 := containsSubL_append_mid n.data ['G', 'B'] []
    simpa using h0
  have hcontM : containsSub "MB" (n ++ "MB") = true := by
    show containsSubL "MB".data (n ++ "MB").data = true
    rw [hMdata]
    have h0 := containsSubL_append_mid n.data ['M', 'B'] []
    simpa using h0
  have hcontk : containsSub "kB" (n ++ "kB") = true := by
    show containsSubL "kB".data (n ++ "kB").data = true
    rw [hkdata]
    have h0 := containsSubL_append_mid n.data ['k', 'B'] []
    simpa using h0
  have hcontB : containsSub "B" (n ++ "B") = true := by
    show containsSubL "B".data (n ++ "B").data = true
    rw [hBdata]
    have h0 := containsSubL_append_mid n.data ['B'] []
    simpa using h0
  have hnoG : ∀ (s : String) (l : List Char), (n ++ s).data = n.data ++ l → 'G' ∉ l →
      containsSub "GB" (n ++ s) = false := by
    intro s l hd hG
    show containsSubL "GB".data (n ++ s).data = false
    rw [hd]
    exact containsSub_false_of_not_mem (by decide) (not_mem_append_of hnG hG)
  have hnoM : ∀ (s : String) (l : List Char), (n ++ s).data = n.data ++ l → 'M' ∉ l →
      containsSub "MB" (n ++ s) = false := by
    intro s l hd hM
    show containsSubL "MB".data (n ++ s).data = false
    rw [hd]
    exact containsSub_false_of_not_mem (by decide) (not_mem_append_of hnM hM)
  have hnok : ∀ (s : String) (l : List Char), (n ++ s).data = n.data ++ l → 'k' ∉ l →
      containsSub "kB" (n ++ s) = false := by
    intro s l hd hk
    show containsSubL "kB".data (n ++ s).data = false
    rw [hd]
    exact containsSub_false_of_not_mem (by decide) (not_mem_append_of hnk hk)
  have hrstrip : ∀ (suf cs : String) (l : List Char), (n ++ suf).data = n.data ++ l →
      (∀ c ∈ l, cs.data.contains c = true) →
      (∀ u ∈ cs.data, u.isDigit = false ∧ ¬ u = '.') →
      rstripS (n ++ suf) cs = n := by
    intro suf cs l hd hlc hcs
    show (⟨rstripL cs.data (n ++ suf).data⟩ : String) = n
    rw [hd, rstripL_append hlc (fun c hc => contains_false_of_num (hn c hc) hcs)]
  have hrG := hrstrip "GB" "GB" ['G', 'B'] hGdata (by decide) (by decide)
  have hrM := hrstrip "MB" "MB" ['M', 'B'] hMdata (by decide) (by decide)
  have hrk := hrstrip "kB" "kB" ['k', 'B'] hkdata (by decide) (by decide)
  have hrB := hrstrip "B" "B" ['B'] hBdata (by decide) (by decide)
  refine ⟨?_, ?_, ?_, ?_⟩
  · simp only [convert_to_mb, hvG, hcontG, if_true, hrG]
  · have h1 := hnoG "MB" ['M', 'B'] hMdata (by decide)
    simp only [convert_to_mb, hvM, h1, Bool.false_eq_true, if_false, hcontM, if_true, hrM]
  · have h1 := hnoG "kB" ['k', 'B'] hkdata (by decide)
    have h2 := hnoM "kB" ['k', 'B'] hkdata (by decide)
    simp only [convert_to_mb, hvk, h1, h2, Bool.false_eq_true, if_false, hcontk, if_true, hrk]
  · have h1 := hnoG "B" ['B'] hBdata (by decide)
    have h2 := hnoM "B" ['B'] hBdata (by decide)
    have h3 := hnok "B" ['B'] hBdata (by decide)
    simp only [convert_to_mb, hvB, h1, h2, h3, Bool.false_eq_true, if_false, hcontB, if_true, hrB]

/-! ## Helper lemmas for records, fields and the round trip -/

lemma data_comma : (",").data = [','] := rfl

lemma data_nl : ("\n").data = ['\n'] := rfl

lemma fieldOk_comma {s : String} (h : fieldOk s = true) : ',' ∉ s.data := by
  intro hm
  unfold fieldOk at h
  simp only [Bool.and_eq_true, Bool.not_eq_true'] at h
  have h1 := h.1
  rw [charContains_iff.mpr hm] at h1
  exact Bool.noConfusion h1

lemma fieldOk_nl {s : String} (h : fieldOk s = true) : '\n' ∉ s.data := by
  intro hm
  unfold fieldOk at h
  simp only [Bool.and_eq_true, Bool.not_eq_true'] at h
  have h2 := h.2
  rw [charContains_iff.mpr hm] at h2
  exact Bool.noConfusion h2

lemma splitFields {fs : List (List Char)} {last : List Char}
    (hfs : ∀ f ∈ fs, ',' ∉ f) (hlast : ',' ∉ last) :
    splitOnCharL ',' (fs.foldr (fun f acc => f ++ ',' :: acc) last) = fs ++ [last] := by
  induction fs with
  | nil => exact splitOnCharL_nosep hlast
  | cons f fs' ih =>
    simp only [List.foldr_cons]
    rw [splitOnCharL_append _ (hfs f (List.mem_cons_self f fs'))]
    rw [ih (fun g hg => hfs g (List.mem_cons_of_mem f hg))]
    rfl

lemma formatRecordCore_data (ts cid cpu mem memp dr dw : String) :
    (formatRecordCore ts cid cpu mem memp dr dw).data =
      ts.data ++ ',' :: (cid.data ++ ',' :: (cpu.data ++ ',' :: (mem.data ++ ',' ::
        (memp.data ++ ',' :: (dr.data ++ ',' :: dw.data))))) := by
  simp [formatRecordCore, String.data_append, data_comma, List.append_assoc]

lemma splitOnCharS_fields (ts cid cpu mem memp dr dw : String)
    (h1 : ',' ∉ ts.data) (h2 : ',' ∉ cid.data) (h3 : ',' ∉ cpu.data) (h4 : ',' ∉ mem.data)
    (h5 : ',' ∉ memp.data) (h6 : ',' ∉ dr.data) (h7 : ',' ∉ dw.data) :
    splitOnCharS ',' (formatRecordCore ts cid cpu mem memp dr dw) =
      [ts, cid, cpu, mem, memp, dr, dw] := by
  unfold splitOnCharS
  rw [formatRecordCore_data]
  have hs := @splitFields [ts.data, cid.data, cpu.data, mem.data, memp.data, dr.data]
    dw.data (by
      intro f hf
      simp only [List.mem_cons, List.not_mem_nil, or_false] at hf
      rcases hf with rfl | rfl | rfl | rfl | rfl | rfl <;> assumption) h7
  rw [show (([ts.data, cid.data, cpu.data, mem.data, memp.data, dr.data] : List (List Char)).foldr
        (fun f acc => f ++ ',' :: acc) dw.data) =
      ts.data ++ ',' :: (cid.data ++ ',' :: (cpu.data ++ ',' :: (mem.data ++ ',' ::
        (memp.data ++ ',' :: (dr.data ++ ',' :: dw.data))))) from rfl] at hs
  rw [hs]
  simp [mk_data]

lemma coreLine_no_nl {s : RawSample} (h : wfSample s = true) : '\n' ∉ (coreLine s).data := by
  unfold wfSample at h
  simp only [Bool.and_eq_true] at h
  obtain ⟨⟨⟨⟨⟨⟨⟨⟨⟨⟨hts, hcid⟩, hcpu⟩, hmem⟩, hmemp⟩, hdr⟩, hdw⟩, _⟩, _⟩, _⟩, _⟩ := h
  unfold coreLine
  rw [formatRecordCore_data]
  intro hm
  simp only [List.mem_append, List.mem_cons] at hm
  rcases hm with hm | hm | hm | hm | hm | hm | hm | hm | hm | hm | hm | hm | hm
  · exact fieldOk_nl hts hm
  · exact absurd hm (by decide)
  · exact fieldOk_nl hcid hm
  · exact absurd hm (by decide)
  · exact fieldOk_nl hcpu hm
  · exact absurd hm (by decide)
  · exact fieldOk_nl hmem hm
  · exact absurd hm (by decide)
  · exact fieldOk_nl hmemp hm
  · exact absurd hm (by decide)
  · exact fieldOk_nl hdr hm
  · exact absurd hm (by decide)
  · exact fieldOk_nl hdw hm

lemma coreLine_ne_empty (s : RawSample) : coreLine s ≠ "" := by
  intro he
  have hd := string_eq_iff.mp he
  rw [show coreLine s = formatRecordCore s.ts s.cid s.cpu s.mem s.memp s.dr s.dw from rfl,
    formatRecordCore_data] at hd
  simp at hd

lemma parseRow_coreLine {s : RawSample} (h : wfSample s = true) :
    parseRow (coreLine s) = some (sampleToRow s) := by
  have hw := h
  unfold wfSample at hw
  simp only [Bool.and_eq_true] at hw
  obtain ⟨⟨⟨⟨⟨⟨⟨⟨⟨⟨hts, hcid⟩, hcpu⟩, hmem⟩, hmemp⟩, hdr⟩, hdw⟩, hpc⟩, hpm⟩, hcr⟩, hcw⟩ := hw
  have hsplit := splitOnCharS_fields s.ts s.cid s.cpu s.mem s.memp s.dr s.dw
    (fieldOk_comma hts) (fieldOk_comma hcid) (fieldOk_comma hcpu) (fieldOk_comma hmem)
    (fieldOk_comma hmemp) (fieldOk_comma hdr) (fieldOk_comma hdw)
  have hred : parseRow (coreLine s) = (match parsePercent s.cpu, parsePercent s.memp,
      convert_to_mb s.dr, convert_to_mb s.dw with
    | some c, some mp, some r, some w => some ⟨s.ts, s.cid, c, s.mem, mp, r, w⟩
    | _, _, _, _ => none) := by
    unfold parseRow coreLine
    rw [hsplit]
  obtain ⟨c, hc⟩ := Option.isSome_iff_exists.mp hpc
  obtain ⟨mp, hmp⟩ := Option.isSome_iff_exists.mp hpm
  obtain ⟨dr, hdrv⟩ := Option.isSome_iff_exists.mp hcr
  obtain ⟨dw, hdwv⟩ := Option.isSome_iff_exists.mp hcw
  rw [hred, hc, hmp, hdrv, hdwv]
  simp [sampleToRow, hc, hmp, hdrv, hdwv]

lemma parseRows_map {samples : List RawSample} (h : ∀ s ∈ samples, wfSample s = true) :
    parseRows (samples.map coreLine) = some (samples.map sampleToRow) := by
  induction samples with
  | nil => rfl
  | cons s rest ih =>
    have hs := h s (List.mem_cons_self s rest)
    have hrest := ih (fun x hx => h x (List.mem_cons_of_mem s hx))
    simp only [List.map_cons, parseRows, parseRow_coreLine hs, hrest]

lemma writeSample_eq (s : RawSample) : writeSample s = coreLine s ++ "\n" := rfl

lemma split_filter_records {samples : List RawSample} (h : ∀ s ∈ samples, wfSample s = true) :
    ((splitOnCharL '\n' (joinAll (samples.map writeSample)).data).map
        (fun l => (⟨l⟩ : String))).filter (fun l => !(l == "")) = samples.map coreLine := by
  induction samples with
  | nil => rfl
  | cons s rest ih =>
    have hs := h s (List.mem_cons_self s rest)
    have hrest := ih (fun x hx => h x (List.mem_cons_of_mem s hx))
    have hd : (joinAll ((s :: rest).map writeSample)).data =
        (coreLine s).data ++ '\n' :: (joinAll (rest.map writeSample)).data := by
      simp only [List.map_cons, joinAll, writeSample_eq, String.data_append, data_nl,
        List.append_assoc, List.singleton_append]
    rw [hd, splitOnCharL_append _ (coreLine_no_nl hs)]
    simp only [List.map_cons, List.filter_cons]
    have hne : (!((⟨(coreLine s).data⟩ : String) == "")) = true := by
      simp only [mk_data, Bool.not_eq_true', beq_eq_false_iff_ne, ne_eq]
      exact coreLine_ne_empty s
    rw [hne]
    simp only [if_true, mk_data, hrest, List.map_cons]

lemma split_filter_collectorFile {samples : List RawSample}
    (h : ∀ s ∈ samples, wfSample s = true) :
    (splitOnCharS '\n' (collectorFile samples)).filter (fun l => !(l == "")) =
      headerStr :: samples.map coreLine := by
  have hd : (collectorFile samples).data =
      headerStr.data ++ '\n' :: (joinAll (samples.map writeSample)).data := by
    simp only [collectorFile, headerLine, String.data_append, data_nl, List.append_assoc,
      List.singleton_append]
  unfold splitOnCharS
  rw [hd, splitOnCharL_append _ (by decide)]
  simp only [List.map_cons, List.filter_cons]
  have hne : (!((⟨headerStr.data⟩ : String) == "")) = true := by decide
  rw [hne]
  rw [split_filter_records h]
  simp [mk_data]

lemma loadSeries_roundTrip {samples : List RawSample} (h : ∀ s ∈ samples, wfSample s = true) :
    loadSeries (collectorFile samples) = Except.ok (samples.map sampleToRow) := by
  have hl := split_filter_collectorFile h
  unfold loadSeries
  rw [hl]
  simp [parseRows_map h]

lemma data_sep : (" / ").data = [' ', '/', ' '] := rfl

lemma splitOnCharS_collector (cid cpu mem memp bio : String)
    (h1 : ',' ∉ cid.data) (h2 : ',' ∉ cpu.data) (h3 : ',' ∉ mem.data)
    (h4 : ',' ∉ memp.data) (h5 : ',' ∉ bio.data) :
    splitOnCharS ',' (cid ++ "," ++ cpu ++ "," ++ mem ++ "," ++ memp ++ "," ++ bio) =
      [cid, cpu, mem, memp, bio] := by
  unfold splitOnCharS
  have hd : (cid ++ "," ++ cpu ++ "," ++ mem ++ "," ++ memp ++ "," ++ bio).data =
      cid.data ++ ',' :: (cpu.data ++ ',' :: (mem.data ++ ',' :: (memp.data ++ ',' ::
        bio.data))) := by
    simp [String.data_append, data_comma, List.append_assoc]
  rw [hd]
  have hs := @splitFields [cid.data, cpu.data, mem.data, memp.data] bio.data
    (by
      intro f hf
      simp only [List.mem_cons, List.not_mem_nil, or_false] at hf
      rcases hf with rfl | rfl | rfl | rfl <;> assumption) h5
  rw [show (([cid.data, cpu.data, mem.data, memp.data] : List (List Char)).foldr
      (fun f acc => f ++ ',' :: acc) bio.data) =
      cid.data ++ ',' :: (cpu.data ++ ',' :: (mem.data ++ ',' :: (memp.data ++ ',' ::
        bio.data))) from rfl] at hs
  rw [hs]
  simp [mk_data]

lemma buildRecord_fields {ts cid cpu mem memp bio dr dw : String}
    (h1 : ',' ∉ cid.data) (h2 : ',' ∉ cpu.data) (h3 : ',' ∉ mem.data)
    (h4 : ',' ∉ memp.data) (h5 : ',' ∉ bio.data)
    (hbio : parseBlockIo bio = some (dr, dw)) :
    buildRecord ts (cid ++ "," ++ cpu ++ "," ++ mem ++ "," ++ memp ++ "," ++ bio) =
      some (formatRecord ts cid cpu mem memp dr dw) := by
  simp only [buildRecord]
  rw [splitOnCharS_collector cid cpu mem memp bio h1 h2 h3 h4 h5]
  simp [hbio]

lemma buildRecord_shape {ts s line : String} (h : buildRecord ts s = some line) :
    ∃ cid cpu mem memp dr dw, line = formatRecord ts cid cpu mem memp dr dw := by
  simp only [buildRecord] at h
  obtain ⟨cid, h0, h⟩ := Option.bind_eq_some.mp h
  obtain ⟨cpu, h1, h⟩ := Option.bind_eq_some.mp h
  obtain ⟨mem, h2, h⟩ := Option.bind_eq_some.mp h
  obtain ⟨memp, h3, h⟩ := Option.bind_eq_some.mp h
  obtain ⟨bio, h4, h⟩ := Option.bind_eq_some.mp h
  obtain ⟨rw0, h5, h⟩ := Option.map_eq_some'.mp h
  exact ⟨cid, cpu, mem, memp, rw0.1, rw0.2, h.symm⟩

lemma collectRecords_count {ticks : List TickEvent} (h : ∀ t ∈ ticks, tickOk t = true) :
    (collectRecords ticks).length = (ticks.filter tickNonEmpty).length := by
  induction ticks with
  | nil => rfl
  | cons t rest ih =>
    have ht := h t (List.mem_cons_self t rest)
    have hrest := ih (fun x hx => h x (List.mem_cons_of_mem t hx))
    cases t with
    | interrupt => exact absurd ht (by simp [tickOk])
    | failure => exact absurd ht (by simp [tickOk])
    | output ts s =>
      simp only [tickOk] at ht
      cases hp : processTick ts s with
      | none => rw [hp] at ht; exact Bool.noConfusion ht
      | some o =>
        cases o with
        | none =>
          have hempty : pyStrip s = "" := processTick_skip_iff.mp hp
          have hne : tickNonEmpty (TickEvent.output ts s) = false := by
            simp [tickNonEmpty, hempty]
          simp only [collectRecords, hp, List.filter_cons, hne, Bool.false_eq_true, if_false]
          exact hrest
        | some line =>
          have hsome := processTick_some_line hp
          have hne : tickNonEmpty (TickEvent.output ts s) = true := by
            simp [tickNonEmpty, hsome.1]
          simp only [collectRecords, hp, List.filter_cons, hne, if_true, List.length_cons]
          rw [hrest]

lemma collectRecords_abort {ev : TickEvent}
    (hev : ev = TickEvent.interrupt ∨ ev = TickEvent.failure ∨
      ∃ ts s, ev = TickEvent.output ts s ∧ processTick ts s = none) :
    ∀ pre post : List TickEvent, collectRecords (pre ++ ev :: post) = collectRecords pre := by
  intro pre
  induction pre with
  | nil =>
    intro post
    rcases hev with rfl | rfl | ⟨ts, s, rfl, hp⟩
    · rfl
    · rfl
    · simp [collectRecords, hp]
  | cons t pre' ih =>
    intro post
    cases t with
    | interrupt => rfl
    | failure => rfl
    | output ts s =>
      simp only [List.cons_append, collectRecords, List.append_eq]
      cases hp : processTick ts s with
      | none => rfl
      | some o =>
        cases o with
        | none => exact ih post
        | some line => rw [ih post]

lemma collectRecords_shape {ticks : List TickEvent} {line : String}
    (h : line ∈ collectRecords ticks) :
    ∃ ts cid cpu mem memp dr dw, line = formatRecord ts cid cpu mem memp dr dw := by
  induction ticks with
  | nil => cases h
  | cons t rest ih =>
    cases t with
    | interrupt => cases h
    | failure => cases h
    | output ts s =>
      simp only [collectRecords] at h
      cases hp : processTick ts s with
      | none => rw [hp] at h; exact absurd h (by simp)
      | some o =>
        cases o with
        | none =>
          rw [hp] at h
          exact ih h
        | some l =>
          rw [hp] at h
          have h' : line ∈ l :: collectRecords rest := h
          rcases List.mem_cons.mp h' with rfl | h''
          · obtain ⟨_, hb⟩ := processTick_some_line hp
            obtain ⟨cid, cpu, mem, memp, dr, dw, he⟩ := buildRecord_shape hb
            exact ⟨ts, cid, cpu, mem, memp, dr, dw, he⟩
          · exact ih h''

lemma containsSub_unit_false {u : String} (hu : 'B' ∈ u.data) {v : String}
    (h : containsSub "B" v = false) : containsSub u v = false := by
  cases hc : containsSub u v
  · rfl
  · have hb : 'B' ∈ v.data := mem_of_containsSubL hc 'B' hu
    have hone : containsSubL ['B'] v.data = true := containsSubL_singleton.mpr hb
    rw [show containsSub "B" v = containsSubL ['B'] v.data from rfl, hone] at h
    exact Bool.noConfusion h

/-! ## Claim theorems -/

/-- C1: for every byte-magnitude string, `convert_to_mb` converts to
canonical MiB, the units `GB`, `MB`, `kB`, `B` being recognized in that
order with factors 1024, 1, 1/1024 and 1/(1024*1024) after whitespace
stripping; in particular the five spec examples evaluate as stated. -/
theorem claim_C1_byte_magnitude :
    (∀ n : String, (∀ c ∈ n.data, c.isDigit = true ∨ c = '.') →
      convert_to_mb (n ++ "GB") = (pyFloat? n).map (fun q => q * 1024) ∧
      convert_to_mb (n ++ "MB") = pyFloat? n ∧
      convert_to_mb (n ++ "kB") = (pyFloat? n).map (fun q => q / 1024) ∧
      convert_to_mb (n ++ "B") = (pyFloat? n).map (fun q => q / (1024 * 1024))) ∧
    convert_to_mb "1.5GB" = some 1536 ∧
    convert_to_mb "200kB" = some 0.1953125 ∧
    convert_to_mb "500B" = some (500 / (1024 * 1024)) ∧
    convert_to_mb "3MB" = some 3 ∧
    convert_to_mb "weird" = some 0 ∧
    convert_to_mb " 1.5GB " = some 1536 :=
  ⟨convert_to_mb_num_suffix, by decide, by decide, by decide, by decide, by decide, by decide⟩

/-- C1 witness: the general suffix clause applied at the numeral `1.5`. -/
theorem claim_C1_byte_magnitude_witness :
    convert_to_mb ("1.5" ++ "GB") = (pyFloat? "1.5").map (fun q => q * 1024) :=
  (claim_C1_byte_magnitude.1 "1.5" (by decide)).1

/-- C2 counterexample: at a concrete tick with non-empty query output the
collector writes the raw percent-suffixed CPU string `"12.50%"` into the
record (field index 2 of the written line), not the numeric form
`"12.5"`; the record therefore carries raw percent-suffixed strings. -/
theorem claim_C2_counterexample :
    processTick "2024-01-01 10:00:00" "abc,12.50%,100MiB / 1GiB,6.25%,1.5MB / 2MB" =
      some (some "2024-01-01 10:00:00,abc,12.50%,100MiB / 1GiB,6.25%,1.5MB,2MB\n") ∧
    (splitOnCharS ',' "2024-01-01 10:00:00,abc,12.50%,100MiB / 1GiB,6.25%,1.5MB,2MB\n").get? 2 =
      some "12.50%" ∧
    "12.50%" ≠ "12.5" :=
  ⟨by decide, by decide, by decide⟩

/-- C2 (amended): on every tick with non-empty query output, the collector
appends the CPU-percent, memory-usage and memory-percent fields verbatim —
as the raw strings the runtime reported, percent signs included — into the
formatted record; normalization to floats happens only later, in the
analyzer. -/
theorem claim_C2_raw_fields :
    ∀ ts cid cpu mem memp bio dr dw : String,
      ',' ∉ cid.data → ',' ∉ cpu.data → ',' ∉ mem.data → ',' ∉ memp.data → ',' ∉ bio.data →
      pyStrip (cid ++ "," ++ cpu ++ "," ++ mem ++ "," ++ memp ++ "," ++ bio) =
        cid ++ "," ++ cpu ++ "," ++ mem ++ "," ++ memp ++ "," ++ bio →
      parseBlockIo bio = some (dr, dw) →
      processTick ts (cid ++ "," ++ cpu ++ "," ++ mem ++ "," ++ memp ++ "," ++ bio) =
        some (some (formatRecord ts cid cpu mem memp dr dw)) := by
  intro ts cid cpu mem memp bio dr dw h1 h2 h3 h4 h5 hstrip hbio
  have hne : (cid ++ "," ++ cpu ++ "," ++ mem ++ "," ++ memp ++ "," ++ bio) ≠ "" := by
    intro he
    have hd := string_eq_iff.mp he
    simp [String.data_append, data_comma] at hd
  unfold processTick
  rw [hstrip, if_neg hne, buildRecord_fields h1 h2 h3 h4 h5 hbio]
  rfl

/-- C2 witness: the amended statement applied at a concrete tick. -/
theorem claim_C2_raw_fields_witness :
    processTick "t0"
        ("abc" ++ "," ++ "12.50%" ++ "," ++ "100MiB / 1GiB" ++ "," ++ "6.25%" ++ "," ++
          "1.5MB / 2MB") =
      some (some (formatRecord "t0" "abc" "12.50%" "100MiB / 1GiB" "6.25%" "1.5MB" "2MB")) :=
  claim_C2_raw_fields "t0" "abc" "12.50%" "100MiB / 1GiB" "6.25%" "1.5MB / 2MB" "1.5MB" "2MB"
    (by decide) (by decide) (by decide) (by decide) (by decide) (by decide) (by decide)

/-- C3 counterexample: `"Bad"` matches none of the recognized byte
suffixes, yet `convert_to_mb "Bad"` raises (modelled as `none`: the `"B"`
containment branch fires and `float("Bad")` fails) instead of returning 0. -/
theorem claim_C3_counterexample :
    hasByteSuffix "Bad" = false ∧ convert_to_mb "Bad" = none ∧
      convert_to_mb "Bad" ≠ some 0 :=
  ⟨by decide, by decide, by decide⟩

/-- C3 (amended): for every input string in which no recognized byte unit
occurs as a substring after whitespace stripping (equivalently, in which
the character `B` does not occur), `convert_to_mb` returns 0 and raises no
error. -/
theorem claim_C3_unmatched_unit :
    ∀ s : String, containsSub "B" (pyStrip s) = false → convert_to_mb s = some 0 := by
  intro s h
  have hG := @containsSub_unit_false "GB" (by decide) (pyStrip s) h
  have hM := @containsSub_unit_false "MB" (by decide) (pyStrip s) h
  have hk := @containsSub_unit_false "kB" (by decide) (pyStrip s) h
  simp only [convert_to_mb, hG, hM, hk, h, Bool.false_eq_true, if_false]

/-- C3 witness: the amended statement applied at `"weird"`. -/
theorem claim_C3_unmatched_unit_witness : convert_to_mb "weird" = some 0 :=
  claim_C3_unmatched_unit "weird" (by decide)

/-- Concrete series with a tie in the CPU column (both rows at 50%). -/
def c4Content : String :=
  headerStr ++ "\nt1,c,50.00%,10MiB / 1GiB,5.00%,1MB,2MB\nt2,c,50.00%,11MiB / 1GiB,7.00%,3MB,1MB\n"

/-- The canonicalized rows of `c4Content`. -/
def c4Rows : List Row :=
  [⟨"t1", "c", 50, "10MiB / 1GiB", 5, 1, 2⟩, ⟨"t2", "c", 50, "11MiB / 1GiB", 7, 3, 1⟩]

/-- C4: for every loaded series the analyzer reports, for each of the four
metrics, the index (hence timestamp) of the first occurrence of that
metric's maximum: the reported index attains the maximum, every earlier
index is strictly below it, and whenever some earlier index `i` already
attains the maximum the reported index is at most `i` (earliest-timestamp
tie-breaking). -/
theorem claim_C4_first_occurrence :
    ∀ (content : String) (rows : List Row) (r : Report),
      analyze_max_usage (some content) = Except.ok r →
      loadSeries content = Except.ok rows →
      (isFirstMaxIdx (rows.map Row.cpu) (idxmax (rows.map Row.cpu)) ∧
        r.cpuPeakTs = (rows.getD (idxmax (rows.map Row.cpu)) defaultRow).ts ∧
        ∀ i j, i < j → j < (rows.map Row.cpu).length →
          (∀ k, k < (rows.map Row.cpu).length →
            (rows.map Row.cpu).getD k 0 ≤ (rows.map Row.cpu).getD i 0) →
          idxmax (rows.map Row.cpu) ≤ i) ∧
      (isFirstMaxIdx (rows.map Row.memPercent) (idxmax (rows.map Row.memPercent)) ∧
        r.memPeakTs = (rows.getD (idxmax (rows.map Row.memPercent)) defaultRow).ts) ∧
      (isFirstMaxIdx (rows.map Row.diskRead) (idxmax (rows.map Row.diskRead)) ∧
        r.diskReadPeakTs = (rows.getD (idxmax (rows.map Row.diskRead)) defaultRow).ts) ∧
      (isFirstMaxIdx (rows.map Row.diskWrite) (idxmax (rows.map Row.diskWrite)) ∧
        r.diskWritePeakTs = (rows.getD (idxmax (rows.map Row.diskWrite)) defaultRow).ts) := by
  intro content rows r hok hload
  obtain ⟨hne, rfl⟩ := analyze_ok_elim hok hload
  have hcpu : rows.map Row.cpu ≠ [] := by simpa using hne
  have hmem : rows.map Row.memPercent ≠ [] := by simpa using hne
  have hdr : rows.map Row.diskRead ≠ [] := by simpa using hne
  have hdw : rows.map Row.diskWrite ≠ [] := by simpa using hne
  refine ⟨⟨isFirstMaxIdx_idxmax hcpu, rfl, ?_⟩, ⟨isFirstMaxIdx_idxmax hmem, rfl⟩,
    ⟨isFirstMaxIdx_idxmax hdr, rfl⟩, ⟨isFirstMaxIdx_idxmax hdw, rfl⟩⟩
  intro i j hij hj hmax
  by_contra hlt
  push_neg at hlt
  have h3 := (isFirstMaxIdx_idxmax hcpu).2.2 i hlt
  have h2 := hmax (idxmax (rows.map Row.cpu)) (isFirstMaxIdx_idxmax hcpu).1
  exact absurd h2 (not_le.mpr h3)

/-- C4 witness: at the tied series `c4Content` the reported CPU peak
timestamp is the one at the first maximal index. -/
theorem claim_C4_first_occurrence_witness :
    (mkReport c4Rows).cpuPeakTs = (c4Rows.getD (idxmax (c4Rows.map Row.cpu)) defaultRow).ts :=
  ((claim_C4_first_occurrence c4Content c4Rows (mkReport c4Rows) (by decide) (by decide)).1).2.1

/-- Concrete series whose data row has a non-numeric CPU percent. -/
def c5BadPercent : String := headerStr ++ "\nt1,c,abc%,m,5.00%,1MB,2MB\n"

/-- Concrete series whose data row has a non-numeric disk magnitude. -/
def c5BadMagnitude : String := headerStr ++ "\nt1,c,50.00%,m,5.00%,1XB,2MB\n"

/-- C5: the analyzer fails with `notFound` when the source file is absent
and with `parseError` when the schema or content is malformed (as on a
non-numeric percent or magnitude field), and a failed run produces no
report. -/
theorem claim_C5_failure_modes :
    analyze_max_usage none = Except.error AErr.notFound ∧
    (∀ (c : String) (e : AErr), loadSeries c = Except.error e →
      analyze_max_usage (some c) = Except.error e) ∧
    loadSeries c5BadPercent = Except.error AErr.parseError ∧
    loadSeries c5BadMagnitude = Except.error AErr.parseError ∧
    (∀ (f : Option String) (e : AErr) (r : Report), analyze_max_usage f = Except.error e →
      analyze_max_usage f ≠ Except.ok r) := by
  refine ⟨rfl, ?_, by decide, by decide, ?_⟩
  · intro c e h
    simp [analyze_max_usage, h]
  · intro f e r he hok
    rw [he] at hok
    exact Except.noConfusion hok

/-- C5 witness: the propagation clause applied at the malformed-percent
series. -/
theorem claim_C5_failure_modes_witness :
    analyze_max_usage (some c5BadPercent) = Except.error AErr.parseError :=
  claim_C5_failure_modes.2.1 c5BadPercent AErr.parseError (by decide)

/-- C6: the collector's per-tick error policy is asymmetric: when every
tick is processed without an exception, the number of appended records
equals the number of ticks with non-empty query output (empty output is
skipped and the loop continues); an interruption, a failure, or a tick
whose parsing raises stops the loop with exactly the records of the
preceding ticks kept and the partial tick discarded; and every appended
record is one complete formatted line, never a partial sample. -/
theorem claim_C6_error_policy :
    (∀ ticks : List TickEvent, (∀ t ∈ ticks, tickOk t = true) →
      (collectRecords ticks).length = (ticks.filter tickNonEmpty).length) ∧
    (∀ (pre post : List TickEvent) (ev : TickEvent),
      (ev = TickEvent.interrupt ∨ ev = TickEvent.failure ∨
        ∃ ts s, ev = TickEvent.output ts s ∧ processTick ts s = none) →
      collectRecords (pre ++ ev :: post) = collectRecords pre) ∧
    (∀ (ticks : List TickEvent) (line : String), line ∈ collectRecords ticks →
      ∃ ts cid cpu mem memp dr dw, line = formatRecord ts cid cpu mem memp dr dw) :=
  ⟨fun _ h => collectRecords_count h,
   fun pre post _ hev => collectRecords_abort hev pre post,
   fun _ _ h => collectRecords_shape h⟩

/-- C6 witness: the three clauses applied at concrete traces — a skipped
empty tick, an interruption discarding the rest, and the shape of a
written record. -/
theorem claim_C6_error_policy_witness :
    (collectRecords [TickEvent.output "t1" "c,1%,m,3%,io", TickEvent.output "t2" "  "]).length =
      ([TickEvent.output "t1" "c,1%,m,3%,io", TickEvent.output "t2" "  "].filter
        tickNonEmpty).length ∧
    collectRecords ([TickEvent.output "t1" "c,1%,m,3%,io"] ++ TickEvent.interrupt ::
        [TickEvent.output "t3" "x,y,z,w,v"]) =
      collectRecords [TickEvent.output "t1" "c,1%,m,3%,io"] ∧
    (∃ ts cid cpu mem memp dr dw,
      "t1,c,1%,m,3%,io,0B\n" = formatRecord ts cid cpu mem memp dr dw) :=
  ⟨claim_C6_error_policy.1 _ (by decide),
   claim_C6_error_policy.2.1 _ _ _ (Or.inl rfl),
   claim_C6_error_policy.2.2 [TickEvent.output "t1" "c,1%,m,3%,io"] _ (by decide)⟩

/-- Concrete series where the four metrics peak at four different rows. -/
def c7Content : String :=
  headerStr ++ "\nt1,c,90.00%,mem1 / 1GiB,1.00%,1MB,1MB\nt2,c,1.00%,mem2 / 1GiB,90.00%,2MB,2MB\nt3,c,2.00%,mem3 / 1GiB,2.00%,90MB,3MB\nt4,c,3.00%,mem4 / 1GiB,3.00%,3MB,90MB\n"

/-- The canonicalized rows of `c7Content`. -/
def c7Rows : List Row :=
  [⟨"t1", "c", 90, "mem1 / 1GiB", 1, 1, 1⟩, ⟨"t2", "c", 1, "mem2 / 1GiB", 90, 2, 2⟩,
   ⟨"t3", "c", 2, "mem3 / 1GiB", 2, 90, 3⟩, ⟨"t4", "c", 3, "mem4 / 1GiB", 3, 3, 90⟩]

/-- C7: for every non-empty loaded series the report carries the raw
formatted memory-usage string taken from the exact row index where the
memory percent is maximal (first occurrence), together with the timestamp
of that row; and the four peak timestamps are located independently per
metric — there is a series on which all four differ pairwise. -/
theorem claim_C7_report_fidelity :
    (∀ (content : String) (rows : List Row) (r : Report),
      analyze_max_usage (some content) = Except.ok r →
      loadSeries content = Except.ok rows →
      r.maxMemRaw = (rows.getD (idxmax (rows.map Row.memPercent)) defaultRow).memRaw ∧
      isFirstMaxIdx (rows.map Row.memPercent) (idxmax (rows.map Row.memPercent)) ∧
      r.memPeakTs = (rows.getD (idxmax (rows.map Row.memPercent)) defaultRow).ts) ∧
    (∃ (content : String) (r : Report), analyze_max_usage (some content) = Except.ok r ∧
      r.cpuPeakTs ≠ r.memPeakTs ∧ r.cpuPeakTs ≠ r.diskReadPeakTs ∧
      r.cpuPeakTs ≠ r.diskWritePeakTs ∧ r.memPeakTs ≠ r.diskReadPeakTs ∧
      r.memPeakTs ≠ r.diskWritePeakTs ∧ r.diskReadPeakTs ≠ r.diskWritePeakTs) := by
  constructor
  · intro content rows r hok hload
    obtain ⟨hne, rfl⟩ := analyze_ok_elim hok hload
    have hmem : rows.map Row.memPercent ≠ [] := by simpa using hne
    exact ⟨rfl, isFirstMaxIdx_idxmax hmem, rfl⟩
  · exact ⟨c7Content, mkReport c7Rows, by decide, by decide, by decide, by decide, by decide,
      by decide, by decide⟩

/-- C7 witness: the universal clause applied at the four-peak series. -/
theorem claim_C7_report_fidelity_witness :
    (mkReport c7Rows).maxMemRaw =
      (c7Rows.getD (idxmax (c7Rows.map Row.memPercent)) defaultRow).memRaw :=
  (claim_C7_report_fidelity.1 c7Content c7Rows (mkReport c7Rows) (by decide) (by decide)).1

/-- C8: round trip — appending any number of well-formed samples through
the collector's header and record format and then loading the series
through the analyzer's loader yields exactly those samples, in order, with
the canonicalized numeric fields equal to the canonicalization of the
written raw fields. -/
theorem claim_C8_round_trip :
    ∀ samples : List RawSample, (∀ s ∈ samples, wfSample s = true) →
      loadSeries (collectorFile samples) = Except.ok (samples.map sampleToRow) ∧
      (samples.map sampleToRow).length = samples.length := by
  intro samples h
  exact ⟨loadSeries_roundTrip h, List.length_map samples sampleToRow⟩

/-- Two concrete well-formed samples for the round-trip witness. -/
def c8Samples : List RawSample :=
  [⟨"t1", "abc", "12.50%", "100MiB / 1GiB", "6.25%", "1.5MB", "2MB"⟩,
   ⟨"t2", "abc", "13.00%", "101MiB / 1GiB", "6.30%", "200kB", "3GB"⟩]

/-- C8 witness: the round trip applied at two concrete samples. -/
theorem claim_C8_round_trip_witness :
    loadSeries (collectorFile c8Samples) = Except.ok (c8Samples.map sampleToRow) ∧
    (c8Samples.map sampleToRow).length = c8Samples.length :=
  claim_C8_round_trip c8Samples (by decide)

/-- C9: the collector splits every block-I/O field on the literal
delimiter `" / "` into the read and write parts; when the delimiter is
absent the whole field is the read value and the write value defaults to
`"0B"`. -/
theorem claim_C9_blockio_split :
    (∀ a b : String, '/' ∉ a.data → '/' ∉ b.data →
      parseBlockIo (a ++ " / " ++ b) = some (a, b)) ∧
    (∀ s : String, '/' ∉ s.data → parseBlockIo s = some (s, "0B")) := by
  constructor
  · intro a b ha hb
    have hdata : (a ++ " / " ++ b).data = a.data ++ ' ' :: '/' :: ' ' :: b.data := by
      simp [String.data_append, data_sep, List.append_assoc]
    have hcont : containsSub " / " (a ++ " / " ++ b) = true := by
      show containsSubL " / ".data (a ++ " / " ++ b).data = true
      rw [hdata]
      have h0 := containsSubL_append_mid a.data [' ', '/', ' '] b.data
      simpa using h0
    unfold parseBlockIo
    rw [if_pos hcont]
    rw [show splitOnSepL (a ++ " / " ++ b).data = [a.data, b.data] from by
      rw [hdata]; exact splitOnSepL_mid b.data ha hb]
    simp [mk_data]
  · intro s h
    have hc : ¬ containsSub " / " s = true := by
      intro hc
      exact absurd (mem_of_containsSubL hc '/' (by decide)) h
    unfold parseBlockIo
    rw [if_neg hc]

/-- C9 witness: both clauses applied at concrete block-I/O fields. -/
theorem claim_C9_blockio_split_witness :
    parseBlockIo ("1.5MB" ++ " / " ++ "2MB") = some ("1.5MB", "2MB") ∧
    parseBlockIo "5MB" = some ("5MB", "0B") :=
  ⟨claim_C9_blockio_split.1 "1.5MB" "2MB" (by decide) (by decide),
   claim_C9_blockio_split.2 "5MB" (by decide)⟩

/-- C10: the analyzer run performs no write or truncation on its source —
the file state after a run is identical to the state before, whether the
run produced a report or failed, so repeated analysis yields the identical
result. -/
theorem claim_C10_analyzer_read_only :
    ∀ fs : Option String, (analyzeRun fs).1 = fs ∧
      (analyzeRun ((analyzeRun fs).1)).2 = (analyzeRun fs).2 :=
  fun _ => ⟨rfl, rfl⟩

/-- C10 witness: the frame property at a concrete file state. -/
theorem claim_C10_analyzer_read_only_witness :
    (analyzeRun (some "x")).1 = some "x" :=
  (claim_C10_analyzer_read_only (some "x")).1
